import Mathlib

/-!
A verification development for the WindowTiler repository
(src/WindowTiler.py).  The definitions below are shallow embeddings of the
tiling logic: the count-driven grid policy and pixel placement of
`WindowTiler.sort`, the explicit-grid placement of
`WindowTiler._apply_layer`, the case-insensitive substring matcher, the
per-window failure handling, and the layer-list reordering of
`WindowTiler._reorder_layers`.  Python integer arithmetic is modelled with
`Nat`/`Int` (Python `//` on non-negative operands is `Nat` division), and
Python strings are modelled as `List Char`.
-/

/-- A monitor rectangle as returned by the monitor enumeration:
top-left corner `(x, y)` (possibly negative) and positive extent. -/
structure Monitor where
  x : Int
  y : Int
  width : Nat
  height : Nat
deriving Repr, DecidableEq

/-- A target rectangle for a window: origin and size.  Sizes are `Int`
because the code computes `base - 1`, which Python evaluates in ℤ. -/
structure Rect where
  x : Int
  y : Int
  w : Int
  h : Int
deriving Repr, DecidableEq

/-- Grid-dimension policy of `WindowTiler.sort` (lines 550-556):
`n == 4` is special-cased to a 2×2 grid, otherwise
`cols = min(3, n)` and `rows = (n + cols - 1) // cols`.
Returns `(rows, cols)`. -/
def gridDims (n : Nat) : Nat × Nat :=
  if n = 4 then
    (2, 2)
  else
    let cols := min 3 n
    let rows := (n + cols - 1) / cols
    (rows, cols)

/-- Pixel placement of window `i` in `WindowTiler.sort` (lines 558-579):
`base_win_w = mon.width // cols`, `base_win_h = mon.height // rows`,
placed size `(base_win_w - horizontal_gap, base_win_h - vertical_gap)`,
origin `(mon.x + c*base_win_w + horizontal_gap//2,
mon.y + r*base_win_h + vertical_gap//2)` with `r, c = divmod(i, cols)`. -/
def sortTileRect (mon : Monitor) (rows cols i : Nat) : Rect :=
  let horizontal_gap : Nat := 1
  let vertical_gap : Nat := 1
  let base_win_w : Nat := mon.width / cols
  let base_win_h : Nat := mon.height / rows
  let win_w : Int := (base_win_w : Int) - (horizontal_gap : Int)
  let win_h : Int := (base_win_h : Int) - (vertical_gap : Int)
  let r : Nat := i / cols
  let c : Nat := i % cols
  { x := mon.x + (c : Int) * (base_win_w : Int) + ((horizontal_gap / 2 : Nat) : Int)
    y := mon.y + (r : Int) * (base_win_h : Int) + ((vertical_gap / 2 : Nat) : Int)
    w := win_w
    h := win_h }

/-- Pixel placement of the window assigned to `tile_index` in
`WindowTiler._apply_layer` (lines 461-478): the same arithmetic as
`sort`, with `row = tile_index // cols`, `col = tile_index % cols`. -/
def layerTileRect (mon : Monitor) (rows cols tile_index : Nat) : Rect :=
  let horizontal_gap : Nat := 1
  let vertical_gap : Nat := 1
  let base_win_w : Nat := mon.width / cols
  let base_win_h : Nat := mon.height / rows
  let win_w : Int := (base_win_w : Int) - (horizontal_gap : Int)
  let win_h : Int := (base_win_h : Int) - (vertical_gap : Int)
  let row : Nat := tile_index / cols
  let col : Nat := tile_index % cols
  { x := mon.x + (col : Int) * (base_win_w : Int) + ((horizontal_gap / 2 : Nat) : Int)
    y := mon.y + (row : Int) * (base_win_h : Int) + ((vertical_gap / 2 : Nat) : Int)
    w := win_w
    h := win_h }

/-- Membership of an integer point in a rectangle, half-open on the
right/bottom: the pixels a placed window of that geometry covers. -/
def Rect.memPt (r : Rect) (p : Int × Int) : Prop :=
  r.x ≤ p.1 ∧ p.1 < r.x + r.w ∧ r.y ≤ p.2 ∧ p.2 < r.y + r.h

/-- A window record as seen through the enumeration collaborator:
title (a Python string, modelled as its character list), an opaque
handle, and the minimized / visible state flags. -/
structure WinRec where
  title : List Char
  handle : Nat
  minimized : Bool
  visible : Bool
deriving Repr, DecidableEq

/-- Python `str.lower()`, character-wise. -/
def lowerStr (s : List Char) : List Char := s.map Char.toLower

/-- `isPrefixChars n h` : the list `n` is an initial segment of `h`. -/
def isPrefixChars : List Char → List Char → Bool
  | [], _ => true
  | _ :: _, [] => false
  | a :: as, b :: bs => a == b && isPrefixChars as bs

/-- Python substring test `needle in hay` on strings: `needle` occurs
contiguously in `hay` (the empty needle occurs everywhere). -/
def containsSub (needle : List Char) : List Char → Bool
  | [] => isPrefixChars needle []
  | c :: rest => isPrefixChars needle (c :: rest) || containsSub needle rest

/-- The selection predicate of `WindowTiler.sort` (line 531):
`app_text in title.lower()` where `app_text = query.lower()`. -/
def matchesQuery (q : List Char) (w : WinRec) : Bool :=
  containsSub (lowerStr q) (lowerStr w.title)

/-- Observable events of the matching loop: a `restore()` request and
the appending of a window to `self.target_windows`. -/
inductive MatchEv
  | restoreReq (handle : Nat)
  | target (handle : Nat)
deriving Repr, DecidableEq

/-- One iteration of the window loop of `WindowTiler.sort`
(lines 529-538): on a title match, a minimized window gets a `restore()`
request (`try: w.restore() / except Exception: pass` — both the success
and the exception continuation fall through), then the window is always
appended to the target list.  `fails h` says whether `restore()` on
handle `h` raises. -/
def sortScanStep (app_text : List Char) (fails : Nat → Bool)
    (acc : List WinRec × List MatchEv) (w : WinRec) :
    List WinRec × List MatchEv :=
  if containsSub app_text (lowerStr w.title) then
    let acc1 :=
      if w.minimized then
        match (if fails w.handle then Except.error () else
            Except.ok () : Except Unit Unit) with
        | Except.ok _ => (acc.1, acc.2 ++ [MatchEv.restoreReq w.handle])
        | Except.error _ => (acc.1, acc.2 ++ [MatchEv.restoreReq w.handle])
      else acc
    (acc1.1 ++ [w], acc1.2 ++ [MatchEv.target w.handle])
  else acc

/-- The full matching loop of `WindowTiler.sort`: fold over the windows
in discovery order, collecting the target list and the event trace. -/
def sortScan (app_text : List Char) (fails : Nat → Bool)
    (ws : List WinRec) : List WinRec × List MatchEv :=
  ws.foldl (sortScanStep app_text fails) ([], [])

/-- The matched target windows of `sort` for query `q`
(`app_text = q.lower()` at line 525). -/
def sortTargets (q : List Char) (fails : Nat → Bool)
    (ws : List WinRec) : List WinRec :=
  (sortScan (lowerStr q) fails ws).1

/-- The per-window event trace the loop should produce: a restore request
for minimized matches, then the target-append, nothing for non-matches. -/
def expectedEvents (q : List Char) (w : WinRec) : List MatchEv :=
  if matchesQuery q w then
    (if w.minimized then [MatchEv.restoreReq w.handle] else []) ++
      [MatchEv.target w.handle]
  else []

/-- Result of one `sort` invocation, as surfaced through the message
boxes: the "Nothing to do" information box (lines 541-547) or the final
"Windows sorted!" box (line 591). -/
inductive SortOutcome
  | nothingToDo
  | done
deriving Repr, DecidableEq

/-- Which of the per-window OS calls in the `try` block raises for a
given window: none, `resizeTo`, `moveTo`, or `activate`. -/
inductive WinOp
  | ok
  | failResize
  | failMove
  | failActivate
deriving Repr, DecidableEq

/-- Observable OS-side state the tiling loop mutates: per-handle window
size and position, the activation log, and the diagnostic stream (the
handles whose failure was printed at line 588). -/
structure WorldState where
  size : Nat → Option (Int × Int)
  pos : Nat → Option (Int × Int)
  active : List Nat
  diagnostics : List Nat

/-- One iteration of the tiling loop of `WindowTiler.sort`
(lines 574-588): `win.resizeTo`, then `win.moveTo`, then `win.activate`,
inside one `try`; an exception from any of them skips the rest of the
block for this window and prints a diagnostic, nothing more. -/
def tileStep (mon : Monitor) (rows cols : Nat) (outcome : Nat → WinOp)
    (st : WorldState) (iw : Nat × WinRec) : WorldState :=
  let rect := sortTileRect mon rows cols iw.1
  let h := iw.2.handle
  match outcome h with
  | WinOp.ok =>
      { st with
        size := Function.update st.size h (some (rect.w, rect.h))
        pos := Function.update st.pos h (some (rect.x, rect.y))
        active := st.active ++ [h] }
  | WinOp.failResize =>
      { st with diagnostics := st.diagnostics ++ [h] }
  | WinOp.failMove =>
      { st with
        size := Function.update st.size h (some (rect.w, rect.h))
        diagnostics := st.diagnostics ++ [h] }
  | WinOp.failActivate =>
      { st with
        size := Function.update st.size h (some (rect.w, rect.h))
        pos := Function.update st.pos h (some (rect.x, rect.y))
        diagnostics := st.diagnostics ++ [h] }

/-- The tiling loop `for i, win in enumerate(self.target_windows)`,
threading the world state through `tileStep` window by window. -/
def tileLoop (mon : Monitor) (rows cols : Nat) (outcome : Nat → WinOp) :
    Nat → List WinRec → WorldState → WorldState
  | _, [], st => st
  | i, w :: ws, st =>
      tileLoop mon rows cols outcome (i + 1) ws
        (tileStep mon rows cols outcome st (i, w))

/-- `WindowTiler.sort` from the point where the target windows are known
(lines 540-591): `n == 0` reports "Nothing to do" and touches nothing,
otherwise the grid is computed by `gridDims` and every target window is
processed by the tiling loop, ending in the "done" message box. -/
def sortRun (mon : Monitor) (outcome : Nat → WinOp)
    (targets : List WinRec) (st : WorldState) : SortOutcome × WorldState :=
  let n := targets.length
  if n = 0 then
    (SortOutcome.nothingToDo, st)
  else
    let rc := gridDims n
    (SortOutcome.done, tileLoop mon rc.1 rc.2 outcome 0 targets st)

/-- Window matching of `WindowTiler._apply_layer` (lines 443-451): keep
windows whose title is non-empty (`if w.title and ...`) and contains the
query case-insensitively, in enumeration order. -/
def findWindows (app_title : List Char) (ws : List WinRec) : List WinRec :=
  ws.filter (fun w =>
    decide (w.title ≠ []) && containsSub (lowerStr app_title) (lowerStr w.title))

/-- The `positioned_windows` accumulation of `WindowTiler._apply_layer`
(lines 441-454): for each `(tile_index, app_title)` assignment, collect
`(tile_index, windows[0])` when the match list is non-empty
(`# Take first matching window`). -/
def positionedWindows (selected_apps : List (Nat × List Char))
    (ws : List WinRec) : List (Nat × WinRec) :=
  selected_apps.foldl (fun acc ta =>
    match findWindows ta.2 ws with
    | [] => acc
    | w :: _ => acc ++ [(ta.1, w)]) []

/-- The move/resize actions `_apply_layer` performs (lines 473-486): one
per positioned window, at the rectangle of its tile index. -/
def layerActions (mon : Monitor) (rows cols : Nat)
    (selected_apps : List (Nat × List Char)) (ws : List WinRec) :
    List (Nat × Rect) :=
  (positionedWindows selected_apps ws).map
    (fun tw => (tw.2.handle, layerTileRect mon rows cols tw.1))

/-- Layer configuration record: the fields of the per-layer dictionary
that the grid and ordering logic reads (`name`, `rows`, `cols`,
`app_count`); the widget references are irrelevant here. -/
structure Layer where
  name : List Char
  rows : Nat
  cols : Nat
  app_count : Nat
deriving Repr, DecidableEq

/-- Lexicographic comparison of Python strings by code point (the `≤`
Python's tuple sort key comparison uses on the name component). -/
def lexLe : List Char → List Char → Bool
  | [], _ => true
  | _ :: _, [] => false
  | a :: as, b :: bs =>
      if a.toNat < b.toNat then true
      else if b.toNat < a.toNat then false
      else lexLe as bs

/-- Python's tuple comparison of the sort key
`(-layer['app_count'], layer['name'])` of `_reorder_layers` (line 501):
`a` sorts no later than `b` iff `a` has the larger `app_count`, or equal
counts and `a.name ≤ b.name`. -/
def layerKeyLE (a b : Layer) : Bool :=
  if b.app_count < a.app_count then true
  else if a.app_count < b.app_count then false
  else lexLe a.name b.name

/-- `WindowTiler._reorder_layers` (lines 498-510): stable in-place sort
of the layer list by the key `(-app_count, name)`, modelled with a
stable sorting function over `layerKeyLE`. -/
def reorderLayers (ls : List Layer) : List Layer :=
  List.insertionSort (fun a b => layerKeyLE a b = true) ls

/-- `WindowTiler.add_layer` (lines 168-195): append a fresh 1×1 layer
(`app_count = 1`, `rows = 1`, `cols = 1`) and reorder. -/
def addLayer (nm : List Char) (ls : List Layer) : List Layer :=
  reorderLayers (ls ++ [{ name := nm, rows := 1, cols := 1, app_count := 1 }])

/-- `WindowTiler._remove_layer` (lines 490-496): remove the layer and
reorder the remaining ones. -/
def removeLayer (l : Layer) (ls : List Layer) : List Layer :=
  reorderLayers (ls.erase l)

/-- `WindowTiler._update_grid_from_spinners` (lines 296-306) followed by
`_update_layer_preview` (lines 308-317): set the named layer's `rows`,
`cols`, and `app_count = rows * cols`, then reorder. -/
def updateLayerGrid (nm : List Char) (rows cols : Nat)
    (ls : List Layer) : List Layer :=
  reorderLayers (ls.map (fun l =>
    if l.name = nm then
      { l with rows := rows, cols := cols, app_count := rows * cols }
    else l))

/-- The ordering C10 claims: descending tile count `rows * cols`, layer
name (code-point order) as tie-break. -/
def TileCountOrdered (ls : List Layer) : Prop :=
  List.Pairwise (fun a b =>
    b.rows * b.cols < a.rows * a.cols ∨
      (a.rows * a.cols = b.rows * b.cols ∧ lexLe a.name b.name = true)) ls

/-- Every layer's cached `app_count` equals its `rows * cols`. -/
def CountConsistent (ls : List Layer) : Prop :=
  ∀ l ∈ ls, l.app_count = l.rows * l.cols

/-! ## Theorems -/

/-- C1: for every matched-window count `n ≥ 1`: `n = 4` gives a 2×2 grid;
otherwise `cols = min(3, n)`, `rows = ceil(n / cols)` (computed as
`(n + cols - 1) / cols`), and in that general case `rows * cols ≥ n`. -/
theorem grid_dimension_policy (n : Nat) (hn : 1 ≤ n) :
    (n = 4 → gridDims n = (2, 2)) ∧
    (n ≠ 4 →
      (gridDims n).2 = min 3 n ∧
      (gridDims n).1 = (n + min 3 n - 1) / min 3 n ∧
      n ≤ (gridDims n).1 * (gridDims n).2) := by
  constructor
  · intro h4
    simp [gridDims, h4]
  · intro h4
    have h2 : (gridDims n).2 = min 3 n := by simp [gridDims, h4]
    have h1 : (gridDims n).1 = (n + min 3 n - 1) / min 3 n := by
      simp [gridDims, h4]
    refine ⟨h2, h1, ?_⟩
    rw [h1, h2]
    rcases Nat.lt_or_ge n 3 with h | h
    · interval_cases n <;> decide
    · have hm : min 3 n = 3 := by omega
      simp only [hm]
      omega

/-- Witness for C1 at `n = 5` (grid is 2 rows × 3 cols, `6 ≥ 5`). -/
theorem grid_dimension_policy_witness :
    1 ≤ 5 ∧
    ((5 = 4 → gridDims 5 = (2, 2)) ∧
     (5 ≠ 4 →
       (gridDims 5).2 = min 3 5 ∧
       (gridDims 5).1 = (5 + min 3 5 - 1) / min 3 5 ∧
       5 ≤ (gridDims 5).1 * (gridDims 5).2)) :=
  ⟨by decide, grid_dimension_policy 5 (by decide)⟩

/-- C2: for every monitor, grid, and tile index `i < rows * cols`, the
planner places tile `i` at row `i / cols`, column `i % cols`, with size
`(width/cols - 1) × (height/rows - 1)` and origin exactly
`(mon.x + col * (width/cols), mon.y + row * (height/rows))` — the
`gap // 2` term in the source is `1 // 2 = 0`, so no offset is added. -/
theorem sort_cell_geometry (mon : Monitor) (rows cols i : Nat)
    (_hi : i < rows * cols) :
    sortTileRect mon rows cols i =
      { x := mon.x + ((i % cols : Nat) : Int) * ((mon.width / cols : Nat) : Int)
        y := mon.y + ((i / cols : Nat) : Int) * ((mon.height / rows : Nat) : Int)
        w := ((mon.width / cols : Nat) : Int) - 1
        h := ((mon.height / rows : Nat) : Int) - 1 } := by
  simp [sortTileRect]

/-- Witness for C2: monitor `(0,0,1920,1080)`, grid 1×3, tile 1. -/
theorem sort_cell_geometry_witness :
    (1 : Nat) < 1 * 3 ∧
    sortTileRect ⟨0, 0, 1920, 1080⟩ 1 3 1 =
      { x := (0 : Int) + ((1 % 3 : Nat) : Int) * ((1920 / 3 : Nat) : Int)
        y := (0 : Int) + ((1 / 3 : Nat) : Int) * ((1080 / 1 : Nat) : Int)
        w := ((1920 / 3 : Nat) : Int) - 1
        h := ((1080 / 1 : Nat) : Int) - 1 } :=
  ⟨by decide, sort_cell_geometry ⟨0, 0, 1920, 1080⟩ 1 3 1 (by decide)⟩

/-- C9: the count-driven `sort` path and the explicit-grid layer path
compute identical tile rectangles for the same monitor, grid, and index. -/
theorem sort_layer_placement_equivalent (mon : Monitor) (rows cols i : Nat) :
    sortTileRect mon rows cols i = layerTileRect mon rows cols i := rfl

/-- Closed form of `sortTileRect` used by the geometric lemmas below:
the `gap // 2` offsets evaluate to `0`. -/
lemma sortTileRect_closed (mon : Monitor) (rows cols i : Nat) :
    sortTileRect mon rows cols i =
      { x := mon.x + ((i % cols : Nat) : Int) * ((mon.width / cols : Nat) : Int)
        y := mon.y + ((i / cols : Nat) : Int) * ((mon.height / rows : Nat) : Int)
        w := ((mon.width / cols : Nat) : Int) - 1
        h := ((mon.height / rows : Nat) : Int) - 1 } := by
  simp [sortTileRect]

/-- A point inside the 1-D cell of index `c1` is strictly left of the
start of any cell of larger index `c2`: the half-open cell intervals of
distinct indices are disjoint. -/
lemma cell_interval_disjoint (a bw c1 c2 p : Int) (hbw : 0 ≤ bw)
    (hcc : c1 < c2)
    (h2 : p < a + c1 * bw + (bw - 1)) (h3 : a + c2 * bw ≤ p) : False := by
  nlinarith [mul_le_mul_of_nonneg_right (show c1 + 1 ≤ c2 by omega) hbw]

/-- Any point of cell `c` lies in `[a, a + total)` when `(c+1)·bw ≤ total`. -/
lemma cell_interval_inside (a bw c p total : Int) (hbw : 0 ≤ bw)
    (hc : 0 ≤ c) (hcw : (c + 1) * bw ≤ total)
    (h1 : a + c * bw ≤ p) (h2 : p < a + c * bw + (bw - 1)) :
    a ≤ p ∧ p < a + total := by
  constructor
  · nlinarith [mul_nonneg hc hbw]
  · nlinarith

/-- In ℕ: `(k + 1) * (t / d) ≤ t` whenever `k < d`. -/
lemma succ_mul_div_le (k d t : Nat) (hk : k < d) : (k + 1) * (t / d) ≤ t := by
  calc (k + 1) * (t / d) ≤ d * (t / d) :=
        Nat.mul_le_mul_right (t / d) (by omega)
    _ = (t / d) * d := Nat.mul_comm d (t / d)
    _ ≤ t := Nat.div_mul_le_self t d

/-- C3: for every monitor and grid and indices `i ≠ j` below `rows*cols`,
tile `i` has `row < rows` and `col < cols`, its rectangle lies within the
monitor's half-open bounds, and the rectangles of distinct tiles share no
point (the 1-pixel trailing gap separates them). -/
theorem sort_tile_containment_and_disjoint (mon : Monitor) (rows cols i j : Nat)
    (hi : i < rows * cols) (_hj : j < rows * cols) :
    (i % cols < cols ∧ i / cols < rows) ∧
    (∀ p : Int × Int, (sortTileRect mon rows cols i).memPt p →
       mon.x ≤ p.1 ∧ p.1 < mon.x + (mon.width : Int) ∧
       mon.y ≤ p.2 ∧ p.2 < mon.y + (mon.height : Int)) ∧
    (i ≠ j → ∀ p : Int × Int,
       ¬((sortTileRect mon rows cols i).memPt p ∧
         (sortTileRect mon rows cols j).memPt p)) := by
  have hpos : 0 < rows * cols := lt_of_le_of_lt (Nat.zero_le i) hi
  have hc : 0 < cols := by
    rcases Nat.eq_zero_or_pos cols with h | h
    · rw [h, Nat.mul_zero] at hpos; exact absurd hpos (lt_irrefl 0)
    · exact h
  have hwcast : ∀ k : Nat, k < cols →
      ((k : Int) + 1) * ((mon.width / cols : Nat) : Int) ≤ (mon.width : Int) := by
    intro k hk
    have := succ_mul_div_le k cols mon.width hk
    exact_mod_cast this
  have hhcast : ∀ k : Nat, k < rows →
      ((k : Int) + 1) * ((mon.height / rows : Nat) : Int) ≤ (mon.height : Int) := by
    intro k hk
    have := succ_mul_div_le k rows mon.height hk
    exact_mod_cast this
  refine ⟨⟨Nat.mod_lt i hc, (Nat.div_lt_iff_lt_mul hc).mpr hi⟩, ?_, ?_⟩
  · intro p hp
    rw [sortTileRect_closed] at hp
    obtain ⟨hx1, hx2, hy1, hy2⟩ := hp
    have hxb := cell_interval_inside mon.x ((mon.width / cols : Nat) : Int)
      ((i % cols : Nat) : Int) p.1 (mon.width : Int)
      (Int.natCast_nonneg _) (Int.natCast_nonneg _)
      (hwcast (i % cols) (Nat.mod_lt i hc)) hx1 hx2
    have hyb := cell_interval_inside mon.y ((mon.height / rows : Nat) : Int)
      ((i / cols : Nat) : Int) p.2 (mon.height : Int)
      (Int.natCast_nonneg _) (Int.natCast_nonneg _)
      (hhcast (i / cols) ((Nat.div_lt_iff_lt_mul hc).mpr hi)) hy1 hy2
    exact ⟨hxb.1, hxb.2, hyb.1, hyb.2⟩
  · intro hij p hp
    obtain ⟨hpi, hpj⟩ := hp
    rw [sortTileRect_closed] at hpi hpj
    obtain ⟨hix1, hix2, hiy1, hiy2⟩ := hpi
    obtain ⟨hjx1, hjx2, hjy1, hjy2⟩ := hpj
    by_cases hcc : i % cols = j % cols
    · have hdd : i / cols ≠ j / cols := by
        intro hdd
        apply hij
        conv_lhs => rw [← Nat.div_add_mod i cols]
        rw [hcc, hdd, Nat.div_add_mod]
      rcases Nat.lt_or_ge (i / cols) (j / cols) with h | h
      · exact cell_interval_disjoint mon.y ((mon.height / rows : Nat) : Int)
          ((i / cols : Nat) : Int) ((j / cols : Nat) : Int) p.2
          (Int.natCast_nonneg _) (by exact_mod_cast h) hiy2 hjy1
      · have h' : j / cols < i / cols := by omega
        exact cell_interval_disjoint mon.y ((mon.height / rows : Nat) : Int)
          ((j / cols : Nat) : Int) ((i / cols : Nat) : Int) p.2
          (Int.natCast_nonneg _) (by exact_mod_cast h') hjy2 hiy1
    · rcases Nat.lt_or_ge (i % cols) (j % cols) with h | h
      · exact cell_interval_disjoint mon.x ((mon.width / cols : Nat) : Int)
          ((i % cols : Nat) : Int) ((j % cols : Nat) : Int) p.1
          (Int.natCast_nonneg _) (by exact_mod_cast h) hix2 hjx1
      · have h' : j % cols < i % cols := by omega
        exact cell_interval_disjoint mon.x ((mon.width / cols : Nat) : Int)
          ((j % cols : Nat) : Int) ((i % cols : Nat) : Int) p.1
          (Int.natCast_nonneg _) (by exact_mod_cast h') hjx2 hix1

/-- Witness for C3: monitor `(0,0,1920,1080)`, 2×2 grid, tiles 0 and 1. -/
theorem sort_tile_containment_and_disjoint_witness :
    (0 : Nat) < 2 * 2 ∧ (1 : Nat) < 2 * 2 ∧
    (((0 : Nat) % 2 < 2 ∧ (0 : Nat) / 2 < 2) ∧
     (∀ p : Int × Int, (sortTileRect ⟨0, 0, 1920, 1080⟩ 2 2 0).memPt p →
        (0 : Int) ≤ p.1 ∧ p.1 < (0 : Int) + ((1920 : Nat) : Int) ∧
        (0 : Int) ≤ p.2 ∧ p.2 < (0 : Int) + ((1080 : Nat) : Int)) ∧
     ((0 : Nat) ≠ 1 → ∀ p : Int × Int,
        ¬((sortTileRect ⟨0, 0, 1920, 1080⟩ 2 2 0).memPt p ∧
          (sortTileRect ⟨0, 0, 1920, 1080⟩ 2 2 1).memPt p))) :=
  ⟨by decide, by decide,
    sort_tile_containment_and_disjoint ⟨0, 0, 1920, 1080⟩ 2 2 0 1
      (by decide) (by decide)⟩

/-- Unfolding of the matching loop: the accumulated targets are the
filtered windows and the trace is the concatenation of the per-window
expected events, independent of which `restore()` calls fail. -/
lemma sortScan_foldl (q : List Char) (fails : Nat → Bool)
    (ws : List WinRec) :
    ∀ acc : List WinRec × List MatchEv,
      ws.foldl (sortScanStep (lowerStr q) fails) acc =
        (acc.1 ++ ws.filter (matchesQuery q),
         acc.2 ++ ws.flatMap (expectedEvents q)) := by
  induction ws with
  | nil => intro acc; simp
  | cons w ws ih =>
      intro acc
      rw [List.foldl_cons, ih]
      by_cases hm : containsSub (lowerStr q) (lowerStr w.title)
      · by_cases hmin : w.minimized
        · cases hf : fails w.handle <;>
            simp [sortScanStep, expectedEvents, matchesQuery, hm, hmin, hf]
        · simp [sortScanStep, expectedEvents, matchesQuery, hm, hmin]
      · simp [sortScanStep, expectedEvents, matchesQuery, hm]

/-- C4: for every record list and query, a record is selected exactly when
`query.lower()` occurs in `title.lower()`; the result is the filter of the
discovery list (so selection order is discovery order, no re-sorting, and
minimized or invisible records are never dropped), independently of which
restore calls fail; the handles come out in that same order. -/
theorem matcher_semantics (q : List Char) (fails : Nat → Bool)
    (ws : List WinRec) :
    sortTargets q fails ws = ws.filter (matchesQuery q) ∧
    (∀ w : WinRec, w ∈ sortTargets q fails ws ↔
       w ∈ ws ∧ containsSub (lowerStr q) (lowerStr w.title) = true) ∧
    (sortTargets q fails ws).map WinRec.handle =
      (ws.filter (matchesQuery q)).map WinRec.handle := by
  have h := sortScan_foldl q fails ws ([], [])
  have ht : sortTargets q fails ws = ws.filter (matchesQuery q) := by
    simp only [sortTargets, sortScan, h, List.nil_append]
  refine ⟨ht, ?_, by rw [ht]⟩
  intro w
  rw [ht, List.mem_filter]
  simp [matchesQuery]

/-- C5: every matching minimized record gets a `restore()` request, and it
appears in the event trace immediately before that record's inclusion in
the target list; the target list itself is the same whether or not any
restore fails (the exception is swallowed), so a window whose restore
raised is still included. -/
theorem minimized_restore_best_effort (q : List Char) (fails : Nat → Bool)
    (ws : List WinRec) :
    (sortScan (lowerStr q) fails ws).2 = ws.flatMap (expectedEvents q) ∧
    (sortScan (lowerStr q) fails ws).1 =
      (sortScan (lowerStr q) (fun _ => false) ws).1 ∧
    (∀ w ∈ ws, matchesQuery q w = true →
       w ∈ (sortScan (lowerStr q) fails ws).1) := by
  have h := sortScan_foldl q fails ws ([], [])
  have h0 := sortScan_foldl q (fun _ => false) ws ([], [])
  refine ⟨?_, ?_, ?_⟩
  · simp only [sortScan, h, List.nil_append]
  · simp only [sortScan, h, h0]
  · intro w hw hmatch
    simp only [sortScan, h, List.nil_append]
    exact List.mem_filter.mpr ⟨hw, hmatch⟩

/-- C6: when the query matches zero windows, `sort` reports "Nothing to
do" and returns with the world state untouched: no window is moved,
resized, or activated. -/
theorem empty_match_nothing_to_do (mon : Monitor) (outcome : Nat → WinOp)
    (q : List Char) (fails : Nat → Bool) (ws : List WinRec)
    (st : WorldState) (hempty : ws.filter (matchesQuery q) = []) :
    sortRun mon outcome (sortTargets q fails ws) st =
      (SortOutcome.nothingToDo, st) := by
  have h := sortScan_foldl q fails ws ([], [])
  have ht : sortTargets q fails ws = [] := by
    simp only [sortTargets, sortScan, h, List.nil_append, hempty]
  rw [ht]
  simp [sortRun]

/-- Witness for C6: query `"xyz"` against a single window titled
`"Notepad"`: the filter is empty and `sort` reports nothing to do. -/
theorem empty_match_nothing_to_do_witness :
    [⟨"Notepad".toList, 7, false, true⟩].filter
        (matchesQuery "xyz".toList) = [] ∧
    sortRun ⟨0, 0, 1920, 1080⟩ (fun _ => WinOp.ok)
        (sortTargets "xyz".toList (fun _ => false)
          [⟨"Notepad".toList, 7, false, true⟩])
        ⟨fun _ => none, fun _ => none, [], []⟩ =
      (SortOutcome.nothingToDo, ⟨fun _ => none, fun _ => none, [], []⟩) :=
  ⟨by decide,
   empty_match_nothing_to_do ⟨0, 0, 1920, 1080⟩ (fun _ => WinOp.ok)
     "xyz".toList (fun _ => false) [⟨"Notepad".toList, 7, false, true⟩]
     ⟨fun _ => none, fun _ => none, [], []⟩ (by decide)⟩

/-- The tiling loop never touches the size or position of a handle that
does not occur in the remaining window list. -/
lemma tileLoop_preserves (mon : Monitor) (rows cols : Nat)
    (outcome : Nat → WinOp) (h : Nat) :
    ∀ (ws : List WinRec) (i : Nat) (st : WorldState),
      h ∉ ws.map WinRec.handle →
      (tileLoop mon rows cols outcome i ws st).pos h = st.pos h ∧
      (tileLoop mon rows cols outcome i ws st).size h = st.size h := by
  intro ws
  induction ws with
  | nil => intro i st _; exact ⟨rfl, rfl⟩
  | cons w ws ih =>
      intro i st hmem
      simp only [List.map_cons, List.mem_cons, not_or] at hmem
      obtain ⟨hw, hrest⟩ := hmem
      rw [tileLoop]
      have hr := ih (i + 1) (tileStep mon rows cols outcome st (i, w)) hrest
      rw [hr.1, hr.2]
      cases ho : outcome w.handle <;>
        simp [tileStep, ho, Function.update_noteq hw]

/-- The diagnostic stream only grows along the tiling loop. -/
lemma tileLoop_diag_mono (mon : Monitor) (rows cols : Nat)
    (outcome : Nat → WinOp) (d : Nat) :
    ∀ (ws : List WinRec) (i : Nat) (st : WorldState),
      d ∈ st.diagnostics →
      d ∈ (tileLoop mon rows cols outcome i ws st).diagnostics := by
  intro ws
  induction ws with
  | nil => intro i st hd; exact hd
  | cons w ws ih =>
      intro i st hd
      rw [tileLoop]
      apply ih
      cases ho : outcome w.handle <;>
        simp [tileStep, ho, List.mem_append, hd]

/-- Behaviour of the tiling loop at each window, for pairwise-distinct
handles: a window whose operations all succeed ends at its tile's
position and size no matter what happens to the others; a window whose
operation run raises ends up in the diagnostic stream, and every window
of the list is processed either way. -/
lemma tileLoop_spec (mon : Monitor) (rows cols : Nat)
    (outcome : Nat → WinOp) :
    ∀ (ws : List WinRec) (i0 : Nat) (st : WorldState),
      (ws.map WinRec.handle).Nodup →
      ∀ k (hk : k < ws.length),
        (outcome (ws.get ⟨k, hk⟩).handle = WinOp.ok →
          (tileLoop mon rows cols outcome i0 ws st).pos
              (ws.get ⟨k, hk⟩).handle =
            some ((sortTileRect mon rows cols (i0 + k)).x,
                  (sortTileRect mon rows cols (i0 + k)).y) ∧
          (tileLoop mon rows cols outcome i0 ws st).size
              (ws.get ⟨k, hk⟩).handle =
            some ((sortTileRect mon rows cols (i0 + k)).w,
                  (sortTileRect mon rows cols (i0 + k)).h)) ∧
        (outcome (ws.get ⟨k, hk⟩).handle ≠ WinOp.ok →
          (ws.get ⟨k, hk⟩).handle ∈
            (tileLoop mon rows cols outcome i0 ws st).diagnostics) := by
  intro ws
  induction ws with
  | nil => intro i0 st _ k hk; exact absurd hk (by simp)
  | cons w ws ih =>
      intro i0 st hnd k hk
      have hnd' : (ws.map WinRec.handle).Nodup := by
        simp only [List.map_cons, List.nodup_cons] at hnd
        exact hnd.2
      have hwnot : w.handle ∉ ws.map WinRec.handle := by
        simp only [List.map_cons, List.nodup_cons] at hnd
        exact hnd.1
      cases k with
      | zero =>
          simp only [List.get, Nat.add_zero]
          rw [tileLoop]
          constructor
          · intro hok
            have hpres := tileLoop_preserves mon rows cols outcome w.handle
              ws (i0 + 1) (tileStep mon rows cols outcome st (i0, w)) hwnot
            rw [hpres.1, hpres.2]
            simp [tileStep, hok, Function.update_same]
          · intro hbad
            apply tileLoop_diag_mono
            cases ho : outcome w.handle
            · exact absurd ho hbad
            · simp [tileStep, ho, List.mem_append]
            · simp [tileStep, ho, List.mem_append]
            · simp [tileStep, ho, List.mem_append]
      | succ k' =>
          have hk' : k' < ws.length := by
            simpa [Nat.succ_lt_succ_iff] using hk
          have hidx : i0 + (k' + 1) = (i0 + 1) + k' := by omega
          have := ih (i0 + 1) (tileStep mon rows cols outcome st (i0, w))
            hnd' k' hk'
          rw [tileLoop]
          simpa [List.get, hidx] using this

/-- C7: per-window failure isolation with no rollback.  With pairwise
distinct handles and a non-empty batch, `sort` always reaches its final
"done" report (no failure escalates), and for every window of the batch:
if its operation run succeeds it holds its tile's position and size in
the final state — regardless of failures of any other window, so windows
moved before a failure keep their new positions — and if any of its
operations raises, the exception is caught for it alone and a diagnostic
line carrying its handle is written. -/
theorem per_window_failure_isolation (mon : Monitor) (outcome : Nat → WinOp)
    (targets : List WinRec) (st : WorldState)
    (hnd : (targets.map WinRec.handle).Nodup) (hne : targets ≠ []) :
    (sortRun mon outcome targets st).1 = SortOutcome.done ∧
    ∀ k (hk : k < targets.length),
      (outcome (targets.get ⟨k, hk⟩).handle = WinOp.ok →
        (sortRun mon outcome targets st).2.pos
            (targets.get ⟨k, hk⟩).handle =
          some ((sortTileRect mon (gridDims targets.length).1
                  (gridDims targets.length).2 k).x,
                (sortTileRect mon (gridDims targets.length).1
                  (gridDims targets.length).2 k).y) ∧
        (sortRun mon outcome targets st).2.size
            (targets.get ⟨k, hk⟩).handle =
          some ((sortTileRect mon (gridDims targets.length).1
                  (gridDims targets.length).2 k).w,
                (sortTileRect mon (gridDims targets.length).1
                  (gridDims targets.length).2 k).h)) ∧
      (outcome (targets.get ⟨k, hk⟩).handle ≠ WinOp.ok →
        (targets.get ⟨k, hk⟩).handle ∈
          (sortRun mon outcome targets st).2.diagnostics) := by
  have hlen : targets.length ≠ 0 := by
    intro h
    exact hne (List.length_eq_zero.mp h)
  constructor
  · simp [sortRun, hlen]
  · intro k hk
    have hspec := tileLoop_spec mon (gridDims targets.length).1
      (gridDims targets.length).2 outcome targets 0 st hnd k hk
    simpa [sortRun, hlen] using hspec

/-- Witness for C7: two windows with distinct handles, `moveTo` failing
on handle 1 while handle 2 succeeds. -/
theorem per_window_failure_isolation_witness :
    ([⟨"a".toList, 1, false, true⟩,
      ⟨"b".toList, 2, false, true⟩].map WinRec.handle).Nodup ∧
    ([⟨"a".toList, 1, false, true⟩,
      ⟨"b".toList, 2, false, true⟩] : List WinRec) ≠ [] ∧
    ((sortRun ⟨0, 0, 1920, 1080⟩
        (fun h => if h = 1 then WinOp.failMove else WinOp.ok)
        [⟨"a".toList, 1, false, true⟩, ⟨"b".toList, 2, false, true⟩]
        ⟨fun _ => none, fun _ => none, [], []⟩).1 = SortOutcome.done ∧
     ∀ k (hk : k < ([⟨"a".toList, 1, false, true⟩,
          ⟨"b".toList, 2, false, true⟩] : List WinRec).length),
       ((fun h => if h = 1 then WinOp.failMove else WinOp.ok)
           (([⟨"a".toList, 1, false, true⟩,
              ⟨"b".toList, 2, false, true⟩] : List WinRec).get
              ⟨k, hk⟩).handle = WinOp.ok →
         (sortRun ⟨0, 0, 1920, 1080⟩
             (fun h => if h = 1 then WinOp.failMove else WinOp.ok)
             [⟨"a".toList, 1, false, true⟩, ⟨"b".toList, 2, false, true⟩]
             ⟨fun _ => none, fun _ => none, [], []⟩).2.pos
             (([⟨"a".toList, 1, false, true⟩,
                ⟨"b".toList, 2, false, true⟩] : List WinRec).get
                ⟨k, hk⟩).handle =
           some ((sortTileRect ⟨0, 0, 1920, 1080⟩
                   (gridDims ([⟨"a".toList, 1, false, true⟩,
                     ⟨"b".toList, 2, false, true⟩] : List WinRec).length).1
                   (gridDims ([⟨"a".toList, 1, false, true⟩,
                     ⟨"b".toList, 2, false, true⟩] : List WinRec).length).2
                   k).x,
                 (sortTileRect ⟨0, 0, 1920, 1080⟩
                   (gridDims ([⟨"a".toList, 1, false, true⟩,
                     ⟨"b".toList, 2, false, true⟩] : List WinRec).length).1
                   (gridDims ([⟨"a".toList, 1, false, true⟩,
                     ⟨"b".toList, 2, false, true⟩] : List WinRec).length).2
                   k).y) ∧
         (sortRun ⟨0, 0, 1920, 1080⟩
             (fun h => if h = 1 then WinOp.failMove else WinOp.ok)
             [⟨"a".toList, 1, false, true⟩, ⟨"b".toList, 2, false, true⟩]
             ⟨fun _ => none, fun _ => none, [], []⟩).2.size
             (([⟨"a".toList, 1, false, true⟩,
                ⟨"b".toList, 2, false, true⟩] : List WinRec).get
                ⟨k, hk⟩).handle =
           some ((sortTileRect ⟨0, 0, 1920, 1080⟩
                   (gridDims ([⟨"a".toList, 1, false, true⟩,
                     ⟨"b".toList, 2, false, true⟩] : List WinRec).length).1
                   (gridDims ([⟨"a".toList, 1, false, true⟩,
                     ⟨"b".toList, 2, false, true⟩] : List WinRec).length).2
                   k).w,
                 (sortTileRect ⟨0, 0, 1920, 1080⟩
                   (gridDims ([⟨"a".toList, 1, false, true⟩,
                     ⟨"b".toList, 2, false, true⟩] : List WinRec).length).1
                   (gridDims ([⟨"a".toList, 1, false, true⟩,
                     ⟨"b".toList, 2, false, true⟩] : List WinRec).length).2
                   k).h)) ∧
       ((fun h => if h = 1 then WinOp.failMove else WinOp.ok)
           (([⟨"a".toList, 1, false, true⟩,
              ⟨"b".toList, 2, false, true⟩] : List WinRec).get
              ⟨k, hk⟩).handle ≠ WinOp.ok →
         (([⟨"a".toList, 1, false, true⟩,
            ⟨"b".toList, 2, false, true⟩] : List WinRec).get
            ⟨k, hk⟩).handle ∈
           (sortRun ⟨0, 0, 1920, 1080⟩
               (fun h => if h = 1 then WinOp.failMove else WinOp.ok)
               [⟨"a".toList, 1, false, true⟩, ⟨"b".toList, 2, false, true⟩]
               ⟨fun _ => none, fun _ => none, [], []⟩).2.diagnostics)) :=
  ⟨by decide, by decide,
   per_window_failure_isolation ⟨0, 0, 1920, 1080⟩
     (fun h => if h = 1 then WinOp.failMove else WinOp.ok)
     [⟨"a".toList, 1, false, true⟩, ⟨"b".toList, 2, false, true⟩]
     ⟨fun _ => none, fun _ => none, [], []⟩ (by decide) (by decide)⟩

/-- Unfolding of the `positioned_windows` fold: it is the `filterMap`
that keeps, per assignment, the head of that assignment's match list. -/
lemma positionedWindows_foldl (ws : List WinRec) :
    ∀ (sel : List (Nat × List Char)) (acc : List (Nat × WinRec)),
      sel.foldl (fun acc ta =>
          match findWindows ta.2 ws with
          | [] => acc
          | w :: _ => acc ++ [(ta.1, w)]) acc =
        acc ++ sel.filterMap (fun ta =>
          (findWindows ta.2 ws).head?.map (fun w => (ta.1, w))) := by
  intro sel
  induction sel with
  | nil => intro acc; simp
  | cons ta sel ih =>
      intro acc
      rw [List.foldl_cons]
      cases hf : findWindows ta.2 ws with
      | nil => simp [hf, ih]
      | cons w rest => simp [hf, ih]

/-- C8: at apply time, the positioned pairs are exactly, per assignment
in order, the first window the matcher returns for that tile's query
(assignments with no match contribute nothing); consequently every
positioned pair's window is the head of its query's match list, and a
tile with no assignment never gets a window positioned on it. -/
theorem layer_first_match_only (sel : List (Nat × List Char))
    (ws : List WinRec) :
    positionedWindows sel ws =
      sel.filterMap (fun ta =>
        (findWindows ta.2 ws).head?.map (fun w => (ta.1, w))) ∧
    (∀ t w, (t, w) ∈ positionedWindows sel ws →
       ∃ ttl, (t, ttl) ∈ sel ∧ (findWindows ttl ws).head? = some w) ∧
    (∀ t, t ∉ sel.map Prod.fst →
       ∀ w, (t, w) ∉ positionedWindows sel ws) := by
  have heq : positionedWindows sel ws =
      sel.filterMap (fun ta =>
        (findWindows ta.2 ws).head?.map (fun w => (ta.1, w))) := by
    rw [positionedWindows, positionedWindows_foldl ws sel []]
    simp
  have hmem : ∀ t w, (t, w) ∈ positionedWindows sel ws →
      ∃ ttl, (t, ttl) ∈ sel ∧ (findWindows ttl ws).head? = some w := by
    intro t w hw
    rw [heq] at hw
    obtain ⟨ta, hta, hpick⟩ := List.mem_filterMap.mp hw
    obtain ⟨w', hw', heqp⟩ := Option.map_eq_some'.mp hpick
    obtain ⟨h1, h2⟩ := Prod.mk.injEq .. ▸ heqp
    refine ⟨ta.2, ?_, ?_⟩
    · have hta2 : ta = (t, ta.2) := by
        rw [← h1]
      rw [← hta2]
      exact hta
    · rw [hw', h2]
  refine ⟨heq, hmem, ?_⟩
  intro t ht w hw
  obtain ⟨ttl, hsel, _⟩ := hmem t w hw
  exact ht (List.mem_map.mpr ⟨(t, ttl), hsel, rfl⟩)

/-- Totality of the code-point lexicographic string order. -/
lemma lexLe_total : ∀ a b : List Char, lexLe a b = true ∨ lexLe b a = true := by
  intro a
  induction a with
  | nil => intro b; left; rfl
  | cons x xs ih =>
      intro b
      cases b with
      | nil => right; rfl
      | cons y ys =>
          rcases Nat.lt_trichotomy x.toNat y.toNat with h | h | h
          · left; simp [lexLe, h]
          · have h1 : ¬ x.toNat < y.toNat := by omega
            have h2 : ¬ y.toNat < x.toNat := by omega
            have := ih ys
            rcases this with hc | hc
            · left; simp [lexLe, h1, h2, hc]
            · right; simp [lexLe, h1, h2, hc]
          · right; simp [lexLe, h]

/-- Transitivity of the code-point lexicographic string order. -/
lemma lexLe_trans : ∀ a b c : List Char,
    lexLe a b = true → lexLe b c = true → lexLe a c = true := by
  intro a
  induction a with
  | nil => intro b c _ _; rfl
  | cons x xs ih =>
      intro b c hab hbc
      cases b with
      | nil => simp [lexLe] at hab
      | cons y ys =>
          cases c with
          | nil => simp [lexLe] at hbc
          | cons z zs =>
              simp only [lexLe] at hab hbc ⊢
              by_cases hxy1 : x.toNat < y.toNat
              · by_cases hyz1 : y.toNat < z.toNat
                · simp [show x.toNat < z.toNat by omega]
                · by_cases hyz2 : z.toNat < y.toNat
                  · simp [hyz1, hyz2] at hbc
                  · simp [show x.toNat < z.toNat by omega]
              · by_cases hxy2 : y.toNat < x.toNat
                · simp [hxy1, hxy2] at hab
                · simp only [if_neg hxy1, if_neg hxy2] at hab
                  by_cases hyz1 : y.toNat < z.toNat
                  · simp [show x.toNat < z.toNat by omega]
                  · by_cases hyz2 : z.toNat < y.toNat
                    · simp [hyz1, hyz2] at hbc
                    · simp only [if_neg hyz1, if_neg hyz2] at hbc
                      have hxz1 : ¬ x.toNat < z.toNat := by omega
                      have hxz2 : ¬ z.toNat < x.toNat := by omega
                      simp only [if_neg hxz1, if_neg hxz2]
                      exact ih ys zs hab hbc

/-- Totality of the Python sort-key comparison on layers. -/
lemma layerKeyLE_total : ∀ a b : Layer,
    layerKeyLE a b = true ∨ layerKeyLE b a = true := by
  intro a b
  unfold layerKeyLE
  by_cases h1 : b.app_count < a.app_count
  · left; simp [h1]
  · by_cases h2 : a.app_count < b.app_count
    · right; simp [h2, show ¬ b.app_count < a.app_count from h1]
    · have heq1 : ¬ a.app_count < b.app_count := h2
      rcases lexLe_total a.name b.name with hc | hc
      · left; simp [h1, heq1, hc]
      · right; simp [h1, heq1, hc]

/-- Transitivity of the Python sort-key comparison on layers. -/
lemma layerKeyLE_trans : ∀ a b c : Layer,
    layerKeyLE a b = true → layerKeyLE b c = true →
    layerKeyLE a c = true := by
  intro a b c hab hbc
  unfold layerKeyLE at hab hbc ⊢
  by_cases h1 : b.app_count < a.app_count
  · by_cases h2 : c.app_count < b.app_count
    · simp [show c.app_count < a.app_count by omega]
    · by_cases h3 : b.app_count < c.app_count
      · simp [h2, h3] at hbc
      · simp [show c.app_count < a.app_count by omega]
  · by_cases h1' : a.app_count < b.app_count
    · simp [h1, h1'] at hab
    · simp only [if_neg h1, if_neg h1'] at hab
      by_cases h2 : c.app_count < b.app_count
      · simp [show c.app_count < a.app_count by omega]
      · by_cases h3 : b.app_count < c.app_count
        · simp [h2, h3] at hbc
        · simp only [if_neg h2, if_neg h3] at hbc
          have h4 : ¬ c.app_count < a.app_count := by omega
          have h5 : ¬ a.app_count < c.app_count := by omega
          simp only [if_neg h4, if_neg h5]
          exact lexLe_trans a.name b.name c.name hab hbc

/-- `_reorder_layers` leaves the layer list sorted under the key
comparison `(-app_count, name)`. -/
lemma reorderLayers_sorted (ls : List Layer) :
    List.Pairwise (fun a b => layerKeyLE a b = true) (reorderLayers ls) := by
  haveI : IsTotal Layer (fun a b => layerKeyLE a b = true) :=
    ⟨layerKeyLE_total⟩
  haveI : IsTrans Layer (fun a b => layerKeyLE a b = true) :=
    ⟨layerKeyLE_trans⟩
  exact List.sorted_insertionSort (fun a b => layerKeyLE a b = true) ls

/-- `_reorder_layers` only permutes the list: the members stay the same. -/
lemma reorderLayers_mem (ls : List Layer) (x : Layer) :
    x ∈ reorderLayers ls ↔ x ∈ ls :=
  (List.perm_insertionSort (fun a b => layerKeyLE a b = true) ls).mem_iff

/-- When every cached `app_count` equals `rows * cols`, key-sortedness is
the claimed ordering by descending tile count with name tie-break. -/
lemma key_sorted_to_tile_ordered (ls : List Layer)
    (hcc : CountConsistent ls)
    (hs : List.Pairwise (fun a b => layerKeyLE a b = true) ls) :
    TileCountOrdered ls := by
  refine hs.imp_of_mem ?_
  intro a b ha hb hab
  have hca := hcc a ha
  have hcb := hcc b hb
  unfold layerKeyLE at hab
  by_cases h1 : b.app_count < a.app_count
  · left; omega
  · by_cases h2 : a.app_count < b.app_count
    · simp [h1, h2] at hab
    · simp only [if_neg h1, if_neg h2] at hab
      right
      exact ⟨by omega, hab⟩

/-- C10: with every cached `app_count` equal to its layer's
`rows * cols` (the invariant the spinner handler maintains), each layer
operation — adding a layer, removing a layer, and changing a layer's
grid dimensions — leaves the in-memory layer list sorted by descending
tile count `rows * cols` with the layer name as tie-break, and
re-establishes the count invariant. -/
theorem layers_reordered_after_each_op (anm unm : List Char)
    (grows gcols : Nat) (l : Layer) (ls : List Layer)
    (hinv : CountConsistent ls) :
    (TileCountOrdered (addLayer anm ls) ∧ CountConsistent (addLayer anm ls)) ∧
    (TileCountOrdered (removeLayer l ls) ∧
     CountConsistent (removeLayer l ls)) ∧
    (TileCountOrdered (updateLayerGrid unm grows gcols ls) ∧
     CountConsistent (updateLayerGrid unm grows gcols ls)) := by
  have hadd : CountConsistent (addLayer anm ls) := by
    intro x hx
    rw [addLayer, reorderLayers_mem, List.mem_append] at hx
    rcases hx with hx | hx
    · exact hinv x hx
    · simp only [List.mem_singleton] at hx
      subst hx
      rfl
  have hrem : CountConsistent (removeLayer l ls) := by
    intro x hx
    rw [removeLayer, reorderLayers_mem] at hx
    exact hinv x (List.mem_of_mem_erase hx)
  have hupd : CountConsistent (updateLayerGrid unm grows gcols ls) := by
    intro x hx
    rw [updateLayerGrid, reorderLayers_mem] at hx
    obtain ⟨y, hy, hfy⟩ := List.mem_map.mp hx
    by_cases hn : y.name = unm
    · rw [if_pos hn] at hfy
      subst hfy
      rfl
    · rw [if_neg hn] at hfy
      subst hfy
      exact hinv y hy
  refine ⟨⟨?_, hadd⟩, ⟨?_, hrem⟩, ⟨?_, hupd⟩⟩
  · refine key_sorted_to_tile_ordered _ hadd ?_
    rw [addLayer]
    exact reorderLayers_sorted _
  · refine key_sorted_to_tile_ordered _ hrem ?_
    rw [removeLayer]
    exact reorderLayers_sorted _
  · refine key_sorted_to_tile_ordered _ hupd ?_
    rw [updateLayerGrid]
    exact reorderLayers_sorted _

/-- Witness for C10: one existing consistent 2×1 layer named `"b"`; add
a layer `"a"`, remove the `"b"` layer, and resize `"b"` to 2×3. -/
theorem layers_reordered_after_each_op_witness :
    CountConsistent [⟨"b".toList, 2, 1, 2⟩] ∧
    ((TileCountOrdered (addLayer "a".toList [⟨"b".toList, 2, 1, 2⟩]) ∧
      CountConsistent (addLayer "a".toList [⟨"b".toList, 2, 1, 2⟩])) ∧
     (TileCountOrdered (removeLayer ⟨"b".toList, 2, 1, 2⟩
        [⟨"b".toList, 2, 1, 2⟩]) ∧
      CountConsistent (removeLayer ⟨"b".toList, 2, 1, 2⟩
        [⟨"b".toList, 2, 1, 2⟩])) ∧
     (TileCountOrdered (updateLayerGrid "b".toList 2 3
        [⟨"b".toList, 2, 1, 2⟩]) ∧
      CountConsistent (updateLayerGrid "b".toList 2 3
        [⟨"b".toList, 2, 1, 2⟩]))) :=
  ⟨by simp [CountConsistent],
   layers_reordered_after_each_op "a".toList "b".toList 2 3
     ⟨"b".toList, 2, 1, 2⟩ [⟨"b".toList, 2, 1, 2⟩]
     (by simp [CountConsistent])⟩
